import Mathlib

/-!
Verification of the streaming plan-generation client (`ApiClient.generatePlan`)
and the session-state fold that consumes its events.

Strings are modelled as `List Char`; bytes as `Nat`.  The definitions follow
the TypeScript source of `generatePlan` (SSE buffer splitting on `"\n\n"`,
`data:` line extraction, strict `JSON.parse`, early return on terminal
events, timeout timer and `AbortController`) and the `generatePlan`
callbacks of the app context (chunk accumulation into one assistant
message, error append, loading flag).
-/

namespace Spec2Proof

/-! ## Character classes and string helpers (JS `trimStart` / `trim` / `split`) -/

/-- Whitespace stripped by JS `String.prototype.trim` / `trimStart`
(ASCII part; the exotic Unicode space characters never appear in the frames). -/
def isJsWs (c : Char) : Bool :=
  c = ' ' || c = '\t' || c = '\n' || c = '\r' || c = '\x0b' || c = '\x0c'

/-- JS `s.trimStart()`. -/
def trimStart (s : List Char) : List Char := s.dropWhile isJsWs

/-- JS `s.trimEnd()`. -/
def trimEnd (s : List Char) : List Char := (s.reverse.dropWhile isJsWs).reverse

/-- JS `s.trim()`. -/
def trim (s : List Char) : List Char := trimEnd (trimStart s)

/-- JS `s.split("\n")`: always at least one piece, keeps empty pieces. -/
def splitLines : List Char → List (List Char)
  | [] => [[]]
  | c :: rest =>
    if c = '\n' then [] :: splitLines rest
    else
      match splitLines rest with
      | [] => [[c]]
      | l :: ls => (c :: l) :: ls

/-- JS `lines.join("\n")`. -/
def joinNL : List (List Char) → List Char
  | [] => []
  | [l] => l
  | l :: ls => l ++ '\n' :: joinNL ls

/-- Does the `"\n\n"` separator sit right here (current character and the
next one)? -/
def isSepAt (c : Char) (rest : List Char) : Bool :=
  c = '\n' && rest.head? = some '\n'

/-- First occurrence of the `"\n\n"` separator: the part before it and the
part after it (mirrors `buffer.indexOf("\n\n")` + the two `slice`s). -/
def splitAtSep : List Char → Option (List Char × List Char)
  | [] => none
  | c :: rest =>
    if isSepAt c rest then some ([], rest.tail)
    else (splitAtSep rest).map (fun p => (c :: p.1, p.2))

/-- Fuel-driven repeated extraction of separator-terminated frames; mirrors
`while ((sepIndex = buffer.indexOf("\n\n")) !== -1)`.  The fuel in
`extractFrames` is always sufficient because each split consumes two
characters. -/
def extractFramesAux : Nat → List Char → List (List Char) × List Char
  | 0, x => ([], x)
  | fuel + 1, x =>
    match splitAtSep x with
    | none => ([], x)
    | some (f, r) =>
      let p := extractFramesAux fuel r
      (f :: p.1, p.2)

/-- All complete (separator-terminated) frames in the buffer, and the
remaining partial frame. -/
def extractFrames (x : List Char) : List (List Char) × List Char :=
  extractFramesAux (x.length + 1) x

/-- JS `buffer.split("\n\n")` (used by the end-of-stream flush). -/
def splitNNAux : Nat → List Char → List (List Char)
  | 0, x => [x]
  | fuel + 1, x =>
    match splitAtSep x with
    | none => [x]
    | some (f, r) => f :: splitNNAux fuel r

/-- JS `buffer.split("\n\n")`. -/
def splitNN (x : List Char) : List (List Char) :=
  splitNNAux (x.length + 1) x

/-! ## JSON values and a strict parser (the platform `JSON.parse`)

The client hands each frame payload to the host's `JSON.parse` and catches
the exception; the model returns `Option Json`.  Numbers are kept as their
source lexeme: the dispatch logic never inspects numeric values. -/

inductive Json where
  | null : Json
  | bool (b : Bool) : Json
  | num (lexeme : List Char) : Json
  | str (s : List Char) : Json
  | arr (elems : List Json) : Json
  | obj (fields : List (List Char × Json)) : Json

/-- Whitespace accepted between JSON tokens. -/
def isJsonWs (c : Char) : Bool :=
  c = ' ' || c = '\t' || c = '\n' || c = '\r'

def skipWs (s : List Char) : List Char := s.dropWhile isJsonWs

def hexVal (c : Char) : Option Nat :=
  if '0' ≤ c && c ≤ '9' then some (c.toNat - '0'.toNat)
  else if 'a' ≤ c && c ≤ 'f' then some (10 + c.toNat - 'a'.toNat)
  else if 'A' ≤ c && c ≤ 'F' then some (10 + c.toNat - 'A'.toNat)
  else none

/-- Body of a JSON string after the opening quote: returns the decoded
content and the rest after the closing quote.  (A `\uXXXX` escape denoting
a lone surrogate, which a JS string could hold, is mapped to `Char.ofNat`'s
default; no claim exercises that corner.) -/
def parseStrBody : Nat → List Char → Option (List Char × List Char)
  | 0, _ => none
  | _, [] => none
  | fuel + 1, c :: rest =>
    if c = '"' then some ([], rest)
    else if c = '\\' then
      match rest with
      | 'u' :: h1 :: h2 :: h3 :: h4 :: rest2 =>
        match hexVal h1, hexVal h2, hexVal h3, hexVal h4 with
        | some a, some b, some c2, some d =>
          let n := ((a * 16 + b) * 16 + c2) * 16 + d
          (parseStrBody fuel rest2).map (fun p => (Char.ofNat n :: p.1, p.2))
        | _, _, _, _ => none
      | e :: rest2 =>
        let esc : Option Char :=
          if e = '"' then some '"'
          else if e = '\\' then some '\\'
          else if e = '/' then some '/'
          else if e = 'b' then some '\x08'
          else if e = 'f' then some '\x0c'
          else if e = 'n' then some '\n'
          else if e = 'r' then some '\r'
          else if e = 't' then some '\t'
          else none
        match esc with
        | some ch => (parseStrBody fuel rest2).map (fun p => (ch :: p.1, p.2))
        | none => none
      | [] => none
    else if c.toNat < 0x20 then none
    else (parseStrBody fuel rest).map (fun p => (c :: p.1, p.2))

/-- Longest JSON number lexeme at the head of the input
(`-? int frac? exp?`); a malformed tail such as `1.` leaves the `.` in the
remainder, which the surrounding grammar then rejects, matching
`JSON.parse`'s refusal. -/
def parseNumLex (s : List Char) : Option (List Char × List Char) :=
  let sgn : List Char × List Char :=
    match s with
    | '-' :: r => (['-'], r)
    | _ => ([], s)
  match sgn.2 with
  | [] => none
  | c :: _ =>
    if c.isDigit then
      let ip : List Char × List Char :=
        if c = '0' then (['0'], sgn.2.tail)
        else (sgn.2.takeWhile Char.isDigit, sgn.2.dropWhile Char.isDigit)
      let fp : List Char × List Char :=
        match ip.2 with
        | '.' :: r =>
          let ds := r.takeWhile Char.isDigit
          if ds.isEmpty then ([], ip.2)
          else ('.' :: ds, r.dropWhile Char.isDigit)
        | _ => ([], ip.2)
      let ep : List Char × List Char :=
        match fp.2 with
        | 'e' :: r => expTail 'e' r
        | 'E' :: r => expTail 'E' r
        | _ => ([], fp.2)
      some (sgn.1 ++ ip.1 ++ fp.1 ++ ep.1, ep.2)
    else none
where
  expTail (e : Char) (r : List Char) : List Char × List Char :=
    let sr : List Char × List Char :=
      match r with
      | '+' :: r2 => (['+'], r2)
      | '-' :: r2 => (['-'], r2)
      | _ => ([], r)
    let ds := sr.2.takeWhile Char.isDigit
    if ds.isEmpty then ([], e :: r)
    else (e :: sr.1 ++ ds, sr.2.dropWhile Char.isDigit)

/-- Parser task: a value, the members of an object after `{` (or a comma),
or the elements of an array after `[` (or a comma).  A single fuel-indexed
function keeps the recursion structural so the kernel can evaluate it. -/
inductive PTask where
  | val : PTask
  | members (acc : List (List Char × Json)) : PTask
  | elems (acc : List Json) : PTask

def parseP : Nat → PTask → List Char → Option (Json × List Char)
  | 0, _, _ => none
  | fuel + 1, PTask.val, s =>
    match skipWs s with
    | '"' :: rest => (parseStrBody (rest.length + 1) rest).map (fun p => (Json.str p.1, p.2))
    | '\x7b' :: rest =>
      match skipWs rest with
      | '\x7d' :: r2 => some (Json.obj [], r2)
      | _ => parseP fuel (PTask.members []) rest
    | '[' :: rest =>
      match skipWs rest with
      | ']' :: r2 => some (Json.arr [], r2)
      | _ => parseP fuel (PTask.elems []) rest
    | 't' :: 'r' :: 'u' :: 'e' :: rest => some (Json.bool true, rest)
    | 'f' :: 'a' :: 'l' :: 's' :: 'e' :: rest => some (Json.bool false, rest)
    | 'n' :: 'u' :: 'l' :: 'l' :: rest => some (Json.null, rest)
    | s2 => (parseNumLex s2).map (fun p => (Json.num p.1, p.2))
  | fuel + 1, PTask.members acc, s =>
    match skipWs s with
    | '"' :: rest =>
      match parseStrBody (rest.length + 1) rest with
      | none => none
      | some (key, r1) =>
        match skipWs r1 with
        | ':' :: r2 =>
          match parseP fuel PTask.val r2 with
          | none => none
          | some (v, r3) =>
            match skipWs r3 with
            | ',' :: r4 => parseP fuel (PTask.members (acc ++ [(key, v)])) r4
            | '\x7d' :: r4 => some (Json.obj (acc ++ [(key, v)]), r4)
            | _ => none
        | _ => none
    | _ => none
  | fuel + 1, PTask.elems acc, s =>
    match parseP fuel PTask.val s with
    | none => none
    | some (v, r) =>
      match skipWs r with
      | ',' :: r2 => parseP fuel (PTask.elems (acc ++ [v])) r2
      | ']' :: r2 => some (Json.arr (acc ++ [v]), r2)
      | _ => none

/-- `JSON.parse`: strict parse of the whole payload, `none` on any failure
(the TypeScript wraps the call in `try`/`catch`). -/
def jsonParse (s : List Char) : Option Json :=
  match parseP (2 * s.length + 4) PTask.val s with
  | some (v, rest) => if (skipWs rest).isEmpty then some v else none
  | none => none

/-- JS property access `data.key` on a parsed value: `none` models
`undefined`.  Later duplicate keys overwrite earlier ones, as in a JS
object literal built by `JSON.parse`. -/
def objGet (j : Json) (key : List Char) : Option Json :=
  match j with
  | Json.obj fields => (fields.reverse.find? (fun f => f.1 == key)).map (fun f => f.2)
  | _ => none

/-- `data.type === t` for a string literal `t` (strict string equality;
a missing or non-string `type` never matches). -/
def typeIs (data : Json) (t : List Char) : Bool :=
  match objGet data ("type".toList) with
  | some (Json.str s) => s == t
  | _ => false

/-! ## Events and callback dispatch

`generatePlan` takes three callbacks.  A run of the transport is recorded
as the ordered list of callback invocations (`Cb`). -/

/-- The argument handed to `onError`: either an `Error` built from a string
message, or one built from a missing/non-string `data.message`. -/
inductive ErrV where
  | msg (s : List Char) : ErrV
  | ofData (v : Option Json) : ErrV

/-- One callback invocation: `onMessage(data)`, `onComplete()` or
`onError(e)`. -/
inductive Cb where
  | msg (data : Json) : Cb
  | complete : Cb
  | err (e : ErrV) : Cb

/-- `complete` and `error` are the terminal callbacks. -/
def isTerminal : Cb → Bool
  | Cb.msg _ => false
  | Cb.complete => true
  | Cb.err _ => true

/-- `new Error(data.message)`. -/
def errOfMessage : Option Json → ErrV
  | some (Json.str s) => ErrV.msg s
  | v => ErrV.ofData v

/-- The `data.type` dispatch: `complete` → `onComplete()`, `error` →
`onError(new Error(data.message))`, anything else → `onMessage(data)`. -/
def toCb (data : Json) : Cb :=
  if typeIs data ("complete".toList) then Cb.complete
  else if typeIs data ("error".toList) then Cb.err (errOfMessage (objGet data ("message".toList)))
  else Cb.msg data

/-- `"data:"`. -/
def dataMarker : List Char := "data:".toList

/-- JS `l.startsWith("data:")`. -/
def isDataLine (l : List Char) : Bool := l.take 5 == dataMarker

/-- The payload a mid-stream frame hands to `JSON.parse`:
`eventBlock.split("\n").filter(startsWith "data:").map(slice(5).trimStart()).join("\n").trim()`. -/
def framePayload (block : List Char) : List Char :=
  trim (joinNL (((splitLines block).filter isDataLine).map (fun l => trimStart (l.drop 5))))

/-- Mid-stream processing of one extracted frame: the callback it produces,
if any (`none` covers: no `data:` line, empty payload, JSON parse failure). -/
def frameCb (block : List Char) : Option Cb :=
  let dataLines := ((splitLines block).filter isDataLine).map (fun l => trimStart (l.drop 5))
  if dataLines.isEmpty then none
  else
    let jsonPayload := trim (joinNL dataLines)
    if jsonPayload.isEmpty then none
    else
      match jsonParse jsonPayload with
      | none => none
      | some data => some (toCb data)

/-- `replace(/^:\s*/, "")`: strip one leading colon and the whitespace run
after it. -/
def stripColonWs (s : List Char) : List Char :=
  match s with
  | [] => []
  | c :: r => if c = ':' then r.dropWhile isJsWs else c :: r

/-- End-of-stream flush processing of one split block: unlike the
mid-stream path it uses only the FIRST `data:` line
(`evt.split("\n").find(startsWith "data:")`) and applies
`slice(5).trim().replace(/^:\s*/, "")`. -/
def flushCb (evt : List Char) : Option Cb :=
  match (splitLines evt).find? isDataLine with
  | none => none
  | some dataLine =>
    let jsonStr := stripColonWs (trim (dataLine.drop 5))
    if jsonStr.isEmpty then none
    else
      match jsonParse jsonStr with
      | none => none
      | some data => some (toCb data)

/-- Dispatch a list of decoded candidates in order; a terminal callback
makes the handler `return`, dropping everything after it.  Returns the
trace and whether a terminal callback fired. -/
def dispatchList : List (Option Cb) → List Cb × Bool
  | [] => ([], false)
  | none :: rest => dispatchList rest
  | some cb :: rest =>
    if isTerminal cb then ([cb], true)
    else
      let p := dispatchList rest
      (cb :: p.1, p.2)

/-- The done-branch: if the buffer still holds text, split it on `"\n\n"`
and dispatch each block through the flush logic. -/
def flushTrace (buf : List Char) : List Cb :=
  if (trim buf).isEmpty then [] else (dispatchList ((splitNN buf).map flushCb)).1

/-- The whole read loop of `generatePlan`, as a function from the decoded
text chunks the reader delivers (in order, ending with `done`) to the
trace of callback invocations.  A terminal callback returns early: later
chunks are never read and the leftover buffer is dropped. -/
def runChunks (buf : List Char) : List (List Char) → List Cb
  | [] => flushTrace buf
  | c :: cs =>
    let p := extractFrames (buf ++ c)
    let d := dispatchList (p.1.map frameCb)
    if d.2 then d.1 else d.1 ++ runChunks p.2 cs

/-- The frames the assembly loop extracts across a chunk sequence
(extraction only, independent of dispatch). -/
def framesAcc (buf : List Char) : List (List Char) → List (List Char)
  | [] => []
  | c :: cs =>
    let p := extractFrames (buf ++ c)
    p.1 ++ framesAcc p.2 cs

/-- The partial frame left in the buffer after a chunk sequence. -/
def leftoverF (buf : List Char) : List (List Char) → List Char
  | [] => buf
  | c :: cs => leftoverF (extractFrames (buf ++ c)).2 cs

/-! ## Streaming UTF-8 decoding (`new TextDecoder()` with `{stream: true}`)

The reader delivers byte chunks; `decoder.decode(value, {stream: true})`
carries an incomplete multi-byte sequence across chunk boundaries.  The
decoder is a byte-at-a-time machine whose state is the pending incomplete
sequence; invalid bytes produce U+FFFD (non-fatal mode). -/

/-- Total length of the UTF-8 sequence a leading byte starts, `none` for a
byte that cannot lead a sequence. -/
def utf8Len (b : Nat) : Option Nat :=
  if b < 0x80 then some 1
  else if 0xc2 ≤ b && b ≤ 0xdf then some 2
  else if 0xe0 ≤ b && b ≤ 0xef then some 3
  else if 0xf0 ≤ b && b ≤ 0xf4 then some 4
  else none

/-- Is `b` acceptable as the `idx`-th (1-based) continuation byte after
`lead`?  The first continuation carries the range restrictions that
exclude overlong forms, surrogates and values above U+10FFFF. -/
def contOk (lead : Nat) (idx : Nat) (b : Nat) : Bool :=
  if !(0x80 ≤ b && b ≤ 0xbf) then false
  else if idx ≠ 1 then true
  else if lead = 0xe0 then 0xa0 ≤ b
  else if lead = 0xed then b ≤ 0x9f
  else if lead = 0xf0 then 0x90 ≤ b
  else if lead = 0xf4 then b ≤ 0x8f
  else true

/-- Code point of a complete valid sequence. -/
def seqVal : List Nat → Nat
  | [a] => a
  | [a, b] => (a - 0xc0) * 0x40 + (b - 0x80)
  | [a, b, c] => (a - 0xe0) * 0x1000 + (b - 0x80) * 0x40 + (c - 0x80)
  | [a, b, c, d] => (a - 0xf0) * 0x40000 + (b - 0x80) * 0x1000 + (c - 0x80) * 0x40 + (d - 0x80)
  | _ => 0

/-- Handle byte `b` with no pending sequence. -/
def decFresh (b : Nat) : List Nat × List Char :=
  match utf8Len b with
  | some 1 => ([], [Char.ofNat b])
  | some _ => ([b], [])
  | none => ([], ['�'])

/-- One byte of streaming decode: `pending` is the incomplete sequence
carried over; emits the decoded characters. -/
def decStep (pending : List Nat) (b : Nat) : List Nat × List Char :=
  match pending with
  | [] => decFresh b
  | lead :: conts =>
    if contOk lead (conts.length + 1) b then
      let seq := pending ++ [b]
      if seq.length = (utf8Len lead).getD 0 then ([], [Char.ofNat (seqVal seq)])
      else (seq, [])
    else
      let p := decFresh b
      (p.1, '�' :: p.2)

/-- Fold step of the streaming decode: carry the pending state, accumulate
the output text. -/
def decAccStep (acc : List Nat × List Char) (b : Nat) : List Nat × List Char :=
  let p := decStep acc.1 b
  (p.1, acc.2 ++ p.2)

/-- `decoder.decode(chunk, {stream: true})`: feed a whole byte chunk,
returning the new pending state and the decoded text. -/
def decChunk (st : List Nat) (bytes : List Nat) : List Nat × List Char :=
  bytes.foldl decAccStep (st, [])

/-- Decode a sequence of byte chunks into the sequence of text chunks the
read loop appends to its buffer.  (At `done` the code never flushes the
decoder, so a trailing incomplete sequence is simply dropped.) -/
def decTexts (st : List Nat) : List (List Nat) → List (List Char)
  | [] => []
  | f :: fs =>
    let p := decChunk st f
    p.2 :: decTexts p.1 fs

/-- Callback trace of `generatePlan` fed a given sequence of byte chunks. -/
def byteTrace (frags : List (List Nat)) : List Cb :=
  runChunks [] (decTexts [] frags)

/-- Frames the assembly loop extracts from a given sequence of byte chunks. -/
def byteFrames (frags : List (List Nat)) : List (List Char) :=
  framesAcc [] (decTexts [] frags)

/-! ## The timer / abort machine

`generatePlan` arms a `setTimeout` that aborts the controller and calls
`onError`; the returned cleanup handle clears the timer and aborts; an
abort rejects the pending `reader.read()`, which lands in the `.catch`
whose `AbortError` branch calls `onError` with the timeout message.  The
machine folds that promise-level behaviour into one step per external
happening, on the single-threaded event loop. -/

/-- `STREAMING_TIMEOUT` (ms). -/
def STREAMING_TIMEOUT : Nat := 600000

/-- `Request timed out after ${STREAMING_TIMEOUT}ms` — the message used
both by the timer callback and by the `.catch` `AbortError` branch. -/
def timeoutMessage : List Char :=
  ("Request timed out after ".toList) ++ (Nat.repr STREAMING_TIMEOUT).toList ++ ("ms".toList)

/-- External happenings a run can observe: a byte chunk arrives (already
decoded to text here), the stream ends, the timeout timer fires, or the
caller invokes the returned cancellation handle. -/
inductive Ext where
  | recv (c : List Char) : Ext
  | done : Ext
  | timerFire : Ext
  | cancel : Ext

/-- Transport state: SSE buffer, whether the `setTimeout` is still armed,
whether the controller was aborted, whether the promise chain has settled
(the handler returned or the `.catch` ran), whether `releaseLock` ran, and
the callback trace so far. -/
structure St where
  buf : List Char
  timerActive : Bool
  aborted : Bool
  finished : Bool
  released : Bool
  trace : List Cb

/-- State right after `generatePlan` is entered: timer armed, nothing
buffered, no callback fired. -/
def initSt : St := ⟨[], true, false, false, false, []⟩

/-- One scheduler step.
* `recv`: the read loop appends the decoded chunk and drains complete
  frames; a terminal frame clears the timer, dispatches once and returns
  (the `finally` releases the reader).
* `done`: flush the buffer, `break`, `finally` releases the reader and
  clears the timer.
* `timerFire`: only while armed — `controller.abort()` plus a direct
  `onError(timeout)`; the abort rejects the pending read, so the `.catch`
  fires a second `onError(timeout)` and the chain settles.
* `cancel`: the cleanup handle — `clearTimeout` + `controller.abort()`;
  if the chain was still running the pending read rejects and the
  `.catch`'s `AbortError` branch fires `onError(timeout message)`;
  if it had already settled nothing further happens. -/
def stepE (st : St) (e : Ext) : St :=
  match e with
  | Ext.recv c =>
    if st.finished then st
    else
      let p := extractFrames (st.buf ++ c)
      let d := dispatchList (p.1.map frameCb)
      if d.2 then
        { st with trace := st.trace ++ d.1, timerActive := false, finished := true, released := true }
      else
        { st with buf := p.2, trace := st.trace ++ d.1 }
  | Ext.done =>
    if st.finished then st
    else
      { st with trace := st.trace ++ flushTrace st.buf,
                timerActive := false, finished := true, released := true }
  | Ext.timerFire =>
    if st.timerActive then
      { st with trace := st.trace ++ [Cb.err (ErrV.msg timeoutMessage), Cb.err (ErrV.msg timeoutMessage)],
                timerActive := false, aborted := true, finished := true, released := true }
    else st
  | Ext.cancel =>
    if st.finished then { st with timerActive := false, aborted := true }
    else
      { st with trace := st.trace ++ [Cb.err (ErrV.msg timeoutMessage)],
                timerActive := false, aborted := true, finished := true, released := true }

def runScriptFrom (st : St) (es : List Ext) : St := es.foldl stepE st

/-- Run one `generatePlan` call against a script of external happenings. -/
def runScript (es : List Ext) : St := runScriptFrom initSt es

/-- The script of a plain, uninterrupted stream: its chunks, then `done`. -/
def pureScript (chunks : List (List Char)) : List Ext :=
  chunks.map Ext.recv ++ [Ext.done]

/-- The flush-phase decode candidates of a buffer (what `flushTrace`
dispatches, before the early-return cut). -/
def flushPart (b : List Char) : List (Option Cb) :=
  if (trim b).isEmpty then [] else (splitNN b).map flushCb

/-- All decode candidates a chunk sequence can ever produce: the mid-stream
frames through `frameCb`, then the end-of-stream flush of the leftover
through `flushCb`. -/
def decodedCbs (chunks : List (List Char)) : List (Option Cb) :=
  (framesAcc [] chunks).map frameCb ++ flushPart (leftoverF [] chunks)

/-- Does an optional candidate hold a terminal callback? -/
def optTerminal : Option Cb → Bool
  | some cb => isTerminal cb
  | none => false

/-! ## The session store fold (`AppContext.generatePlan` callbacks)

The store keeps a mutable closure `assistantResponse`, the chat message
list, the selected plan's display name and the `isLoading` flag.  The
`onMessage` callback folds `name_update` and `chunk` events; `onError`
appends a failure message and clears the flag; `onComplete` clears the
flag. -/

inductive Role where
  | user : Role
  | assistant : Role
deriving DecidableEq

/-- `ChatMessage {id, role, content, timestamp}`. -/
structure Msg where
  id : List Char
  role : Role
  content : List Char
  timestamp : Nat
deriving DecidableEq

/-- The slice of provider state the generation callbacks touch. -/
structure AppState where
  assistantResponse : List Char
  chatMessages : List Msg
  planName : Option Json
  isLoading : Bool

/-- `newMessages[existingIndex] = {...newMessages[existingIndex], content}`:
replace only the content of the element at `i`. -/
def setContent (l : List Msg) (i : Nat) (content : List Char) : List Msg :=
  match l, i with
  | [], _ => []
  | m :: rest, 0 => { m with content := content } :: rest
  | m :: rest, j + 1 => m :: setContent rest j content

/-- JS string coercion applied when `data.content` is concatenated onto a
string.  Only the string and `undefined` cases are exercised by any claim;
numbers keep their JSON lexeme and objects use the generic JS rendering. -/
def jsDisplay : Json → List Char
  | Json.null => "null".toList
  | Json.bool true => "true".toList
  | Json.bool false => "false".toList
  | Json.str s => s
  | Json.num lex => lex
  | Json.arr _ => []
  | Json.obj _ => "[object Object]".toList

/-- `assistantResponse += data.content` coercion: `undefined` renders as
`"undefined"`. -/
def contentStr (data : Json) : List Char :=
  match objGet data ("content".toList) with
  | some j => jsDisplay j
  | none => "undefined".toList

/-- JS `Array.prototype.findIndex` (as an `Option Nat`; the code only
compares the result with `>= 0`). -/
def findIndexQ (p : Msg → Bool) : List Msg → Option Nat
  | [] => none
  | m :: rest => if p m then some 0 else (findIndexQ p rest).map (· + 1)

/-- The `onMessage` callback: `name_update` rewrites the plan name;
`chunk` grows `assistantResponse` and upserts the single assistant message
for this generation (found by `assistantMsgId`); any other type is
ignored. -/
def onMessageFold (amid : List Char) (now : Nat) (st : AppState) (data : Json) : AppState :=
  if typeIs data ("name_update".toList) then
    { st with planName := objGet data ("name".toList) }
  else if typeIs data ("chunk".toList) then
    let resp := st.assistantResponse ++ contentStr data
    let msgs :=
      match findIndexQ (fun m => m.id == amid) st.chatMessages with
      | some i => setContent st.chatMessages i resp
      | none => st.chatMessages ++ [⟨amid, Role.assistant, resp, now⟩]
    { st with assistantResponse := resp, chatMessages := msgs }
  else st

/-- The text of the failure message the `onError` callback appends. -/
def failureText : List Char :=
  "Sorry, there was an error generating the plan. Please try again.".toList

/-- `error-${Date.now()}`. -/
def errorId (now : Nat) : List Char := ("error-".toList) ++ (Nat.repr now).toList

/-- The `onError` callback: append one new assistant message describing the
failure and clear `isLoading`; nothing else is touched. -/
def onErrorFold (now : Nat) (st : AppState) : AppState :=
  { st with chatMessages := st.chatMessages ++ [⟨errorId now, Role.assistant, failureText, now⟩],
            isLoading := false }

/-- The `onComplete` callback: clear `isLoading`. -/
def onCompleteFold (st : AppState) : AppState :=
  { st with isLoading := false }

/-! ## Concrete streams and claim-side definitions -/

/-- A `chunk` event as `JSON.parse` returns it:
`{"type": "chunk", "content": s}`. -/
def mkChunkJson (s : List Char) : Json :=
  Json.obj [("type".toList, Json.str ("chunk".toList)), ("content".toList, Json.str s)]

/-- A valid `chunk("a")` frame, a frame whose payload is invalid JSON, and
a valid `chunk("b")` frame, in one byte run. -/
def c4Input : List Char :=
  ("data: \x7b\"type\":\"chunk\",\"content\":\"a\"\x7d\n\ndata: \x7boops\n\ndata: \x7b\"type\":\"chunk\",\"content\":\"b\"\x7d\n\n").toList

/-- The stream `chunk("Hel")`, `chunk("lo")`, `complete()`. -/
def c5Input : List Char :=
  ("data: \x7b\"type\":\"chunk\",\"content\":\"Hel\"\x7d\n\ndata: \x7b\"type\":\"chunk\",\"content\":\"lo\"\x7d\n\ndata: \x7b\"type\":\"complete\"\x7d\n\n").toList

/-- Store state at the start of a generation: empty response buffer,
whatever chat history, `isLoading` set. -/
def c5state0 (init : List Msg) : AppState := ⟨[], init, none, true⟩

/-- Store state after folding `chunk("Hel")`. -/
def c5s1 (init : List Msg) (amid : List Char) (now : Nat) : AppState :=
  onMessageFold amid now (c5state0 init) (mkChunkJson ("Hel".toList))

/-- Store state after folding `chunk("Hel")` then `chunk("lo")`. -/
def c5s2 (init : List Msg) (amid : List Char) (now : Nat) : AppState :=
  onMessageFold amid now (c5s1 init amid now) (mkChunkJson ("lo".toList))

/-- Store state at the moment `onComplete` fires. -/
def c5s3 (init : List Msg) (amid : List Char) (now : Nat) : AppState :=
  onCompleteFold (c5s2 init amid now)

/-- Modelled from the claim's words for C6: the marker and AT MOST ONE
leading space removed from a `data:` line. -/
def stripMarkerOneSpace (l : List Char) : List Char :=
  match l.drop 5 with
  | ' ' :: r => r
  | s => s

/-- Modelled from the claim's words for C6: the payload as the claim
describes it — the newline-join of the marker-stripped `data:` lines,
with at most one leading space removed per line and no further trimming. -/
def c6_claimPayload (block : List Char) : List Char :=
  joinNL (((splitLines block).filter isDataLine).map stripMarkerOneSpace)

/-- Remove every leading whitespace character (spelled out recursively;
used by the amended C6 payload description). -/
def dropLeadingWs : List Char → List Char
  | [] => []
  | c :: r => if isJsWs c then dropLeadingWs r else c :: r

/-- The amended C6 payload description: for each line carrying the marker,
drop the marker and ALL leading whitespace; join with `"\n"` and trim the
join at both ends. -/
def c6_amendedPayload (block : List Char) : List Char :=
  trim (joinNL ((splitLines block).filterMap
    (fun l => if isDataLine l then some (dropLeadingWs (l.drop 5)) else none)))

/-- A `data:` line whose payload has two leading spaces: `trimStart`
erases both, the claim's "at most one leading space" keeps one. -/
def c6CounterBlock : List Char := ("data:  \x7b\x7d").toList

/-- A trailing partial frame whose event is spread over two `data:` lines;
the mid-stream path joins them into valid JSON, the flush path reads only
the first line. -/
def c7Residue : List Char :=
  ("data: \x7b\"type\":\"chunk\",\ndata: \"content\":\"x\"\x7d").toList

/-- The `"\n\n"` frame separator. -/
def nnSep : List Char := ['\n', '\n']

/-- Does a payload begin with a colon (the one case where the flush path's
`replace(/^:\s*/, "")` differs from the mid-stream payload)? -/
def startsWithColon (s : List Char) : Bool :=
  match s with
  | [] => false
  | c :: _ => c = ':'

/-- A single-data-line residue frame (a terminal `complete` the server
sent without its trailing separator). -/
def c7WitnessBlock : List Char := ("data: \x7b\"type\":\"complete\"\x7d").toList

/-- Is a callback an `onError` invocation? -/
def isErrCb : Cb → Bool
  | Cb.err _ => true
  | _ => false

/-- Is a callback the timeout-classified `onError` (the error whose message
is `Request timed out after 600000ms`)? -/
def timeoutClassified : Cb → Bool
  | Cb.err (ErrV.msg s) => s == timeoutMessage
  | _ => false

/-- The claim's notion of an abort-classified error for C8: an `onError`
whose error is distinguishable from the timeout classification. -/
def c8_abortClassified (c : Cb) : Bool := isErrCb c && !timeoutClassified c

/-- One non-terminal chunk frame (used to instantiate C10). -/
def c10Chunks : List (List Char) :=
  [("data: \x7b\"type\":\"chunk\",\"content\":\"a\"\x7d\n\n").toList]

/-! ## Lemmas about frame extraction -/

theorem splitAtSep_cons (c : Char) (rest : List Char) :
    splitAtSep (c :: rest) =
      if isSepAt c rest then some ([], rest.tail)
      else (splitAtSep rest).map (fun p => (c :: p.1, p.2)) := rfl

theorem isSepAt_cons (c a : Char) (l : List Char) :
    isSepAt c (a :: l) = (decide (c = '\n') && decide (a = '\n')) := by
  simp [isSepAt]

theorem splitAtSep_length {x : List Char} :
    ∀ {f r : List Char}, splitAtSep x = some (f, r) → r.length < x.length := by
  induction x with
  | nil => intro f r h; simp [splitAtSep] at h
  | cons c rest ih =>
    intro f r h
    rw [splitAtSep_cons] at h
    split at h
    · cases h
      simp only [List.length_cons]
      cases rest with
      | nil => simp
      | cons a l => simp only [List.tail_cons, List.length_cons]; omega
    · rw [Option.map_eq_some'] at h
      obtain ⟨⟨p1, p2⟩, hp, he⟩ := h
      cases he
      have := ih hp
      simp only [List.length_cons]
      omega

theorem splitAtSep_append {x : List Char} (y : List Char) :
    ∀ {f r : List Char}, splitAtSep x = some (f, r) →
      splitAtSep (x ++ y) = some (f, r ++ y) := by
  induction x with
  | nil => intro f r h; simp [splitAtSep] at h
  | cons c rest ih =>
    intro f r h
    rw [splitAtSep_cons] at h
    rw [List.cons_append, splitAtSep_cons]
    cases rest with
    | nil =>
      simp only [isSepAt, List.head?_nil] at h
      simp only [Bool.and_eq_true, decide_eq_true_eq] at h
      · simp [splitAtSep] at h
    | cons a rest2 =>
      rw [isSepAt_cons] at h
      rw [List.cons_append, isSepAt_cons]
      split at h
      · next hc =>
        cases h
        rw [if_pos hc]
        simp
      · next hc =>
        rw [Option.map_eq_some'] at h
        obtain ⟨⟨p1, p2⟩, hp, he⟩ := h
        cases he
        rw [if_neg hc]
        have hstep : splitAtSep ((a :: rest2) ++ y) = some (p1, p2 ++ y) := ih hp
        rw [List.cons_append] at hstep
        rw [hstep]
        rfl

theorem extractFramesAux_fuel :
    ∀ (f1 f2 : Nat) (x : List Char), x.length < f1 → x.length < f2 →
      extractFramesAux f1 x = extractFramesAux f2 x := by
  intro f1
  induction f1 with
  | zero => intro f2 x h1 h2; omega
  | succ f1 ih =>
    intro f2 x h1 h2
    cases f2 with
    | zero => omega
    | succ f2 =>
      simp only [extractFramesAux]
      cases hs : splitAtSep x with
      | none => rfl
      | some p =>
        obtain ⟨f, r⟩ := p
        dsimp only
        have hr := splitAtSep_length hs
        rw [ih f2 r (by omega) (by omega)]

theorem extractFrames_none {x : List Char} (h : splitAtSep x = none) :
    extractFrames x = ([], x) := by
  simp [extractFrames, extractFramesAux, h]

theorem extractFrames_some {x f r : List Char} (h : splitAtSep x = some (f, r)) :
    extractFrames x = (f :: (extractFrames r).1, (extractFrames r).2) := by
  have hr := splitAtSep_length h
  show extractFramesAux (x.length + 1) x = _
  rw [extractFramesAux, h]
  dsimp only
  rw [extractFramesAux_fuel x.length (r.length + 1) r (by omega) (by omega)]
  rfl

theorem extractFrames_append_bounded (n : Nat) :
    ∀ (x y : List Char), x.length ≤ n →
      extractFrames (x ++ y) =
        ((extractFrames x).1 ++ (extractFrames ((extractFrames x).2 ++ y)).1,
          (extractFrames ((extractFrames x).2 ++ y)).2) := by
  induction n with
  | zero =>
    intro x y hx
    have : x = [] := List.length_eq_zero.mp (Nat.le_zero.mp hx)
    subst this
    have h0 : extractFrames ([] : List Char) = ([], []) := extractFrames_none rfl
    simp [h0]
  | succ n ih =>
    intro x y hx
    cases hs : splitAtSep x with
    | none =>
      rw [extractFrames_none hs]
      simp
    | some p =>
      obtain ⟨f, r⟩ := p
      have hr := splitAtSep_length hs
      have hxy : splitAtSep (x ++ y) = some (f, r ++ y) := splitAtSep_append y hs
      rw [extractFrames_some hs, extractFrames_some hxy]
      have := ih r y (by omega)
      rw [this]
      simp

theorem extractFrames_append (x y : List Char) :
    extractFrames (x ++ y) =
      ((extractFrames x).1 ++ (extractFrames ((extractFrames x).2 ++ y)).1,
        (extractFrames ((extractFrames x).2 ++ y)).2) :=
  extractFrames_append_bounded x.length x y (Nat.le_refl _)

/-! ## Lemmas about dispatch -/

theorem dispatchList_append (xs ys : List (Option Cb)) :
    dispatchList (xs ++ ys) =
      if (dispatchList xs).2 then dispatchList xs
      else ((dispatchList xs).1 ++ (dispatchList ys).1, (dispatchList ys).2) := by
  induction xs with
  | nil => simp [dispatchList]
  | cons o rest ih =>
    cases o with
    | none =>
      simp only [List.cons_append, dispatchList]
      exact ih
    | some cb =>
      simp only [List.cons_append, dispatchList]
      cases ht : isTerminal cb with
      | true => simp
      | false =>
        simp only [Bool.false_eq_true, if_false, List.append_eq]
        rw [ih]
        cases hd : (dispatchList rest).2 <;> simp [hd]

theorem dispatchList_noStop (l : List (Option Cb))
    (h : l.all (fun o => !optTerminal o) = true) :
    dispatchList l = (l.filterMap id, false) := by
  induction l with
  | nil => simp [dispatchList]
  | cons o rest ih =>
    simp only [List.all_cons, Bool.and_eq_true] at h
    cases o with
    | none => simp [dispatchList, List.filterMap_cons, ih h.2]
    | some cb =>
      have ht : isTerminal cb = false := by
        have := h.1
        simpa [optTerminal] using this
      simp [dispatchList, ht, ih h.2, List.filterMap_cons]

theorem dispatchList_noStop_all (l : List (Option Cb))
    (h : (dispatchList l).2 = false) :
    (dispatchList l).1.all (fun cb => !isTerminal cb) = true := by
  induction l with
  | nil => simp [dispatchList]
  | cons o rest ih =>
    cases o with
    | none =>
      simp only [dispatchList] at h ⊢
      exact ih h
    | some cb =>
      cases ht : isTerminal cb with
      | true => simp [dispatchList, ht] at h
      | false =>
        simp only [dispatchList, ht] at h ⊢
        simp only [Bool.false_eq_true, if_false] at h ⊢
        rw [List.all_cons, ht]
        simp only [Bool.not_false, Bool.true_and]
        exact ih h

theorem all_dropLast {α} (l : List α) (p : α → Bool) (h : l.all p = true) :
    l.dropLast.all p = true := by
  rw [List.all_eq_true] at h ⊢
  intro x hx
  exact h x ((List.dropLast_sublist l).subset hx)

theorem dispatchList_dropLast_nonTerm (l : List (Option Cb)) :
    ((dispatchList l).1.dropLast).all (fun cb => !isTerminal cb) = true := by
  induction l with
  | nil => simp [dispatchList]
  | cons o rest ih =>
    cases o with
    | none =>
      simp only [dispatchList]
      exact ih
    | some cb =>
      cases ht : isTerminal cb with
      | true => simp [dispatchList, ht]
      | false =>
        simp only [dispatchList, ht, Bool.false_eq_true, if_false]
        cases hp : (dispatchList rest).1 with
        | nil => simp
        | cons a t =>
          rw [List.dropLast_cons₂, List.all_cons, ht]
          simp only [Bool.not_false, Bool.true_and]
          rw [hp] at ih
          exact ih

/-! ## Chunk-boundary invariance of the read loop -/

theorem runChunks_merge (buf c1 c2 : List Char) (cs : List (List Char)) :
    runChunks buf ((c1 ++ c2) :: cs) = runChunks buf (c1 :: c2 :: cs) := by
  have hE : extractFrames (buf ++ (c1 ++ c2)) =
      ((extractFrames (buf ++ c1)).1 ++
         (extractFrames ((extractFrames (buf ++ c1)).2 ++ c2)).1,
        (extractFrames ((extractFrames (buf ++ c1)).2 ++ c2)).2) := by
    rw [← List.append_assoc]
    exact extractFrames_append (buf ++ c1) c2
  simp only [runChunks]
  rw [hE]
  dsimp only
  rw [List.map_append, dispatchList_append]
  cases hd1 : (dispatchList ((extractFrames (buf ++ c1)).1.map frameCb)).2 with
  | true => simp [hd1]
  | false =>
    simp only [hd1, Bool.false_eq_true, if_false]
    cases hd2 : (dispatchList ((extractFrames ((extractFrames (buf ++ c1)).2 ++ c2)).1.map frameCb)).2 with
    | true => simp [hd2]
    | false => simp [hd2, List.append_assoc]

theorem runChunks_join_cons (ts : List (List Char)) :
    ∀ (t buf : List Char), runChunks buf (t :: ts) = runChunks buf [t ++ ts.flatten] := by
  induction ts with
  | nil => intro t buf; simp
  | cons u ts ih =>
    intro t buf
    calc runChunks buf (t :: u :: ts) = runChunks buf ((t ++ u) :: ts) :=
          (runChunks_merge buf t u ts).symm
    _ = runChunks buf [(t ++ u) ++ ts.flatten] := ih (t ++ u) buf
    _ = runChunks buf [t ++ (u :: ts).flatten] := by rw [List.append_assoc, List.flatten_cons]

theorem runChunks_join (ts : List (List Char)) :
    runChunks [] ts = runChunks [] [ts.flatten] := by
  cases ts with
  | nil =>
    show runChunks [] [] = runChunks [] [List.flatten []]
    rfl
  | cons t ts =>
    rw [List.flatten_cons]
    exact runChunks_join_cons ts t []

theorem framesAcc_merge (buf c1 c2 : List Char) (cs : List (List Char)) :
    framesAcc buf ((c1 ++ c2) :: cs) = framesAcc buf (c1 :: c2 :: cs) := by
  have hE : extractFrames (buf ++ (c1 ++ c2)) =
      ((extractFrames (buf ++ c1)).1 ++
         (extractFrames ((extractFrames (buf ++ c1)).2 ++ c2)).1,
        (extractFrames ((extractFrames (buf ++ c1)).2 ++ c2)).2) := by
    rw [← List.append_assoc]
    exact extractFrames_append (buf ++ c1) c2
  simp only [framesAcc]
  rw [hE]
  simp [List.append_assoc]

theorem framesAcc_join_cons (ts : List (List Char)) :
    ∀ (t buf : List Char), framesAcc buf (t :: ts) = framesAcc buf [t ++ ts.flatten] := by
  induction ts with
  | nil => intro t buf; simp
  | cons u ts ih =>
    intro t buf
    calc framesAcc buf (t :: u :: ts) = framesAcc buf ((t ++ u) :: ts) :=
          (framesAcc_merge buf t u ts).symm
    _ = framesAcc buf [(t ++ u) ++ ts.flatten] := ih (t ++ u) buf
    _ = framesAcc buf [t ++ (u :: ts).flatten] := by rw [List.append_assoc, List.flatten_cons]

theorem framesAcc_join (ts : List (List Char)) :
    framesAcc [] ts = framesAcc [] [ts.flatten] := by
  cases ts with
  | nil =>
    show framesAcc [] [] = framesAcc [] [List.flatten []]
    rfl
  | cons t ts =>
    rw [List.flatten_cons]
    exact framesAcc_join_cons ts t []

/-! ## The streaming decoder is a fold over bytes -/

theorem decChunk_out (bytes : List Nat) :
    ∀ (st : List Nat) (out : List Char),
      bytes.foldl decAccStep (st, out) = ((decChunk st bytes).1, out ++ (decChunk st bytes).2) := by
  induction bytes with
  | nil => intro st out; simp [decChunk]
  | cons b bs ih =>
    intro st out
    simp only [decChunk, List.foldl_cons, decAccStep]
    rw [ih, ih]
    simp [List.append_assoc]

theorem decChunk_append (st : List Nat) (a b : List Nat) :
    decChunk st (a ++ b) =
      ((decChunk (decChunk st a).1 b).1,
        (decChunk st a).2 ++ (decChunk (decChunk st a).1 b).2) := by
  have h := decChunk_out b (decChunk st a).1 (decChunk st a).2
  calc decChunk st (a ++ b)
      = List.foldl decAccStep ((decChunk st a).1, (decChunk st a).2) b := by
        simp only [decChunk, List.foldl_append]
    _ = ((decChunk (decChunk st a).1 b).1,
          (decChunk st a).2 ++ (decChunk (decChunk st a).1 b).2) := h

theorem decTexts_flatten (frags : List (List Nat)) :
    ∀ st : List Nat, (decTexts st frags).flatten = (decChunk st frags.flatten).2 := by
  induction frags with
  | nil => intro st; simp [decTexts, decChunk]
  | cons f fs ih =>
    intro st
    simp only [decTexts, List.flatten_cons]
    rw [ih]
    rw [decChunk_append st f fs.flatten]

/-! ## Machine lemmas -/

theorem runScriptFrom_cons (st : St) (e : Ext) (es : List Ext) :
    runScriptFrom st (e :: es) = runScriptFrom (stepE st e) es := rfl

theorem runScriptFrom_append (st : St) (s1 s2 : List Ext) :
    runScriptFrom st (s1 ++ s2) = runScriptFrom (runScriptFrom st s1) s2 := by
  simp [runScriptFrom, List.foldl_append]

/-- Once the promise chain has settled with the timer cleared, nothing a
later scheduler step does can grow the trace or re-arm the timer. -/
theorem runScriptFrom_settled (es : List Ext) :
    ∀ st : St, st.finished = true → st.timerActive = false →
      (runScriptFrom st es).trace = st.trace ∧
      (runScriptFrom st es).finished = true ∧
      (runScriptFrom st es).timerActive = false ∧
      (st.aborted = true → (runScriptFrom st es).aborted = true) := by
  induction es with
  | nil => intro st h1 h2; exact ⟨rfl, h1, h2, fun h => h⟩
  | cons e es ih =>
    intro st h1 h2
    have hstep : (stepE st e).finished = true ∧ (stepE st e).timerActive = false ∧
        (stepE st e).trace = st.trace ∧ (st.aborted = true → (stepE st e).aborted = true) := by
      cases e <;> simp [stepE, h1, h2]
    obtain ⟨f1, f2, f3, f4⟩ := hstep
    obtain ⟨g1, g2, g3, g4⟩ := ih (stepE st e) f1 f2
    rw [runScriptFrom_cons]
    exact ⟨by rw [g1, f3], g2, g3, fun h => g4 (f4 h)⟩

theorem flushTrace_noStop (b : List Char)
    (h : (flushPart b).all (fun o => !optTerminal o) = true) :
    flushTrace b = (flushPart b).filterMap id := by
  unfold flushTrace flushPart
  unfold flushPart at h
  cases he : (trim b).isEmpty with
  | true => simp [he]
  | false =>
    rw [he] at h
    simp only [Bool.false_eq_true, if_false] at h ⊢
    rw [dispatchList_noStop _ h]

/-- A plain stream (chunks then `done`) whose decode candidates hold no
terminal event: the machine dispatches exactly the non-terminal messages,
settles, clears the timer, releases the reader and never aborts. -/
theorem runScript_pure (chunks : List (List Char)) :
    ∀ st : St, st.finished = false →
      (((framesAcc st.buf chunks).map frameCb ++ flushPart (leftoverF st.buf chunks)).all
        (fun o => !optTerminal o)) = true →
      (runScriptFrom st (pureScript chunks)).trace
          = st.trace ++
            ((framesAcc st.buf chunks).map frameCb ++ flushPart (leftoverF st.buf chunks)).filterMap id ∧
      (runScriptFrom st (pureScript chunks)).finished = true ∧
      (runScriptFrom st (pureScript chunks)).timerActive = false ∧
      (runScriptFrom st (pureScript chunks)).released = true ∧
      (runScriptFrom st (pureScript chunks)).aborted = st.aborted := by
  induction chunks with
  | nil =>
    intro st hf h
    simp only [framesAcc, leftoverF, List.map_nil, List.nil_append] at h ⊢
    have hft := flushTrace_noStop st.buf h
    show (stepE st Ext.done).trace = _ ∧ (stepE st Ext.done).finished = true ∧
      (stepE st Ext.done).timerActive = false ∧ (stepE st Ext.done).released = true ∧
      (stepE st Ext.done).aborted = st.aborted
    simp [stepE, hf, hft]
  | cons c cs ih =>
    intro st hf h
    simp only [framesAcc, leftoverF] at h ⊢
    rw [List.map_append, List.append_assoc, List.all_append, Bool.and_eq_true] at h
    obtain ⟨h1, h2⟩ := h
    have hns := dispatchList_noStop ((extractFrames (st.buf ++ c)).1.map frameCb) h1
    have hrecv : stepE st (Ext.recv c) =
        { st with buf := (extractFrames (st.buf ++ c)).2,
                  trace := st.trace ++
                    (((extractFrames (st.buf ++ c)).1.map frameCb).filterMap id) } := by
      simp [stepE, hf, hns]
    have hscript : pureScript (c :: cs) = Ext.recv c :: pureScript cs := by
      simp [pureScript]
    rw [hscript, runScriptFrom_cons, hrecv]
    have := ih { st with buf := (extractFrames (st.buf ++ c)).2,
                         trace := st.trace ++
                           (((extractFrames (st.buf ++ c)).1.map frameCb).filterMap id) }
      (by simp [hf]) (by simpa using h2)
    obtain ⟨g1, g2, g3, g4, g5⟩ := this
    refine ⟨?_, g2, g3, g4, g5⟩
    rw [g1]
    simp [List.filterMap_append, List.append_assoc]

/-! ## Terminal exclusivity of the dispatch loop -/

theorem dropLast_append_cons {α} (l1 : List α) (a : α) (l2 : List α) :
    (l1 ++ a :: l2).dropLast = l1 ++ (a :: l2).dropLast := by
  induction l1 with
  | nil => simp
  | cons x l1 ih =>
    cases l1 with
    | nil => simp [List.dropLast_cons₂]
    | cons y l1 =>
      rw [List.cons_append, List.cons_append, List.dropLast_cons₂]
      rw [List.cons_append] at ih
      rw [ih]
      rfl

theorem runChunks_dropLast_nonTerm (chunks : List (List Char)) :
    ∀ buf : List Char,
      ((runChunks buf chunks).dropLast).all (fun cb => !isTerminal cb) = true := by
  induction chunks with
  | nil =>
    intro buf
    show ((flushTrace buf).dropLast).all (fun cb => !isTerminal cb) = true
    unfold flushTrace
    cases he : (trim buf).isEmpty with
    | true => simp
    | false =>
      simp only [Bool.false_eq_true, if_false]
      exact dispatchList_dropLast_nonTerm _
  | cons c cs ih =>
    intro buf
    simp only [runChunks]
    cases hd : (dispatchList ((extractFrames (buf ++ c)).1.map frameCb)).2 with
    | true =>
      simp only [hd, if_true]
      exact dispatchList_dropLast_nonTerm _
    | false =>
      simp only [hd, Bool.false_eq_true, if_false]
      have hall := dispatchList_noStop_all _ hd
      cases hrec : runChunks (extractFrames (buf ++ c)).2 cs with
      | nil =>
        rw [List.append_nil]
        exact all_dropLast _ _ hall
      | cons a t =>
        rw [dropLast_append_cons, List.all_append, Bool.and_eq_true]
        refine ⟨hall, ?_⟩
        have := ih (extractFrames (buf ++ c)).2
        rw [hrec] at this
        exact this

/-! ## Support lemmas for the claim theorems -/

theorem all_filterMap_of_optNonTerm (l : List (Option Cb))
    (h : l.all (fun o => !optTerminal o) = true) :
    (l.filterMap id).all (fun cb => !isTerminal cb) = true := by
  induction l with
  | nil => simp
  | cons o rest ih =>
    simp only [List.all_cons, Bool.and_eq_true] at h
    cases o with
    | none => simpa [List.filterMap_cons] using ih h.2
    | some cb =>
      have ht : isTerminal cb = false := by simpa [optTerminal] using h.1
      simp [List.filterMap_cons, List.all_cons, ht, ih h.2]

theorem filter_map_eq_filterMap {α β : Type} (p : α → Bool) (f : α → β) (l : List α) :
    (l.filter p).map f = l.filterMap (fun x => if p x then some (f x) else none) := by
  induction l with
  | nil => simp
  | cons a l ih =>
    cases hp : p a <;> simp [List.filter_cons, List.filterMap_cons, hp, ih]

theorem trimStart_eq_dropLeadingWs (s : List Char) : trimStart s = dropLeadingWs s := by
  induction s with
  | nil => rfl
  | cons c r ih =>
    cases hc : isJsWs c with
    | true =>
      simp only [trimStart, dropLeadingWs, List.dropWhile_cons, hc, if_true]
      simpa [trimStart] using ih
    | false => simp [trimStart, dropLeadingWs, List.dropWhile_cons, hc]

theorem dropWhile_idem (p : Char → Bool) (l : List Char) :
    (l.dropWhile p).dropWhile p = l.dropWhile p := by
  induction l with
  | nil => rfl
  | cons c r ih =>
    cases hc : p c with
    | true =>
      simp only [List.dropWhile_cons, hc, if_true]
      exact ih
    | false => simp [List.dropWhile_cons, hc]

theorem trim_trimStart (s : List Char) : trim (trimStart s) = trim s := by
  unfold trim trimStart
  rw [dropWhile_idem]

theorem filter_nil_find_none {α : Type} (p : α → Bool) (l : List α)
    (h : l.filter p = []) : l.find? p = none := by
  induction l with
  | nil => rfl
  | cons a l ih =>
    cases hp : p a with
    | true => simp [List.filter_cons, hp] at h
    | false =>
      simp only [List.filter_cons, hp] at h
      simp only [List.find?, hp]
      exact ih (by simpa using h)

theorem filter_singleton_find {α : Type} (p : α → Bool) (l : List α) (x : α)
    (h : l.filter p = [x]) : l.find? p = some x := by
  induction l with
  | nil => simp at h
  | cons a l ih =>
    cases hp : p a with
    | true =>
      simp only [List.filter_cons, hp, if_true] at h
      simp only [List.find?, hp]
      exact congrArg some (List.cons_eq_cons.mp h).1.symm ▸ rfl
    | false =>
      simp only [List.filter_cons, hp] at h
      simp only [List.find?, hp]
      exact ih (by simpa using h)

theorem findIndexQ_none (p : Msg → Bool) (l : List Msg)
    (h : l.all (fun m => !p m) = true) : findIndexQ p l = none := by
  induction l with
  | nil => rfl
  | cons m rest ih =>
    simp only [List.all_cons, Bool.and_eq_true] at h
    have hp : p m = false := by simpa using h.1
    simp [findIndexQ, hp, ih h.2]

theorem findIndexQ_append_one (p : Msg → Bool) (l : List Msg) (x : Msg)
    (h : findIndexQ p l = none) (hx : p x = true) :
    findIndexQ p (l ++ [x]) = some l.length := by
  induction l with
  | nil => simp [findIndexQ, hx]
  | cons m rest ih =>
    simp only [findIndexQ] at h
    cases hp : p m with
    | true => simp [hp] at h
    | false =>
      rw [hp] at h
      simp only [Bool.false_eq_true, if_false] at h
      have hrest : findIndexQ p rest = none := by
        cases hr : findIndexQ p rest with
        | none => rfl
        | some i => rw [hr] at h; simp at h
      simp [findIndexQ, hp, ih hrest]

theorem setContent_append_one (l : List Msg) (m : Msg) (c : List Char) :
    setContent (l ++ [m]) l.length c = l ++ [{ m with content := c }] := by
  induction l with
  | nil => rfl
  | cons a l ih => simp [setContent, ih]

/-- Unfolding of the chunk branch of the `onMessage` fold (the `type`
checks on a parsed `chunk` object reduce definitionally). -/
theorem onMessageFold_chunk (amid : List Char) (now : Nat) (st : AppState) (s : List Char) :
    onMessageFold amid now st (mkChunkJson s) =
      { st with assistantResponse := st.assistantResponse ++ s,
                chatMessages :=
                  match findIndexQ (fun m => m.id == amid) st.chatMessages with
                  | some i => setContent st.chatMessages i (st.assistantResponse ++ s)
                  | none => st.chatMessages ++ [⟨amid, Role.assistant, st.assistantResponse ++ s, now⟩] } :=
  rfl

/-! ## Claim theorems -/

/-- C1 (terminal exclusivity): for every byte stream fed to the streaming
`generatePlan` transport, a terminal callback (`onComplete` or `onError`
from a decoded `complete`/`error` frame) can occur only as the very last
callback of the trace — after the first terminal dispatch no further
`onMessage`, `onComplete` or `onError` fires, even if more frames remain
buffered or arrive afterwards, so at most one terminal callback ends the
stream. -/
theorem c1_terminal_exclusivity (frags : List (List Nat)) :
    ((byteTrace frags).dropLast).all (fun cb => !isTerminal cb) = true :=
  runChunks_dropLast_nonTerm (decTexts [] frags) []

/-- C2 (timeout behaviour, failing input): when no frame arrives before the
streaming timeout fires, the code delivers the timeout-classified error to
`onError` TWICE — once from the timer callback itself and once from the
`.catch` handler that receives the `AbortError` of the aborted read — while
the claim requires exactly one `onError`.  The connection is aborted and
the timer disarmed, as claimed. -/
theorem c2_timeout_double_onError :
    (runScript [Ext.timerFire]).trace =
      [Cb.err (ErrV.msg timeoutMessage), Cb.err (ErrV.msg timeoutMessage)] ∧
    (runScript [Ext.timerFire]).aborted = true ∧
    (runScript [Ext.timerFire]).timerActive = false :=
  ⟨rfl, rfl, rfl⟩

/-- C3 (chunk-boundary invariance): splitting the byte stream at arbitrary
points — including mid multi-byte character, mid `data:` line and mid
separator — and feeding the fragments to the assembly loop yields exactly
the frames, and exactly the callback trace, of feeding the whole stream as
one single chunk. -/
theorem c3_chunk_boundary_invariance (frags : List (List Nat)) :
    byteFrames frags = byteFrames [frags.flatten] ∧
    byteTrace frags = byteTrace [frags.flatten] := by
  constructor
  · show framesAcc [] (decTexts [] frags) = framesAcc [] (decTexts [] [frags.flatten])
    rw [framesAcc_join (decTexts [] frags), decTexts_flatten frags []]
    rfl
  · show runChunks [] (decTexts [] frags) = runChunks [] (decTexts [] [frags.flatten])
    rw [runChunks_join (decTexts [] frags), decTexts_flatten frags []]
    rfl

/-- C4 (malformed-frame resilience): a valid `chunk("a")` frame, a frame
with invalid JSON, then a valid `chunk("b")` frame produce exactly two
`onMessage` calls in order, no `onError`, and no exception (the model is a
total function; the parse failure is swallowed). -/
theorem c4_malformed_resilience :
    runChunks [] [c4Input] =
      [Cb.msg (mkChunkJson ("a".toList)), Cb.msg (mkChunkJson ("b".toList))] :=
  rfl

/-- C5 (content accumulation): the stream `chunk("Hel")`, `chunk("lo")`,
`complete()` decodes to exactly those events in order, and folding them
into the store creates one single assistant message whose content is
`"Hel"` after the first chunk — a strict prefix of the final content — and
exactly `"Hello"` at the moment `onComplete` fires (which only clears
`isLoading`). -/
theorem c5_content_accumulation (init : List Msg) (amid : List Char) (now : Nat)
    (h : init.all (fun m => !(m.id == amid)) = true) :
    runChunks [] [c5Input] =
      [Cb.msg (mkChunkJson ("Hel".toList)), Cb.msg (mkChunkJson ("lo".toList)), Cb.complete] ∧
    (c5s1 init amid now).chatMessages = init ++ [⟨amid, Role.assistant, "Hel".toList, now⟩] ∧
    (c5s2 init amid now).chatMessages = init ++ [⟨amid, Role.assistant, "Hello".toList, now⟩] ∧
    (c5s3 init amid now).chatMessages = init ++ [⟨amid, Role.assistant, "Hello".toList, now⟩] ∧
    (c5s3 init amid now).isLoading = false ∧
    ("Hello".toList).take ("Hel".toList).length = "Hel".toList ∧
    ("Hel".toList).length < ("Hello".toList).length := by
  have hidx : findIndexQ (fun m => m.id == amid) init = none := findIndexQ_none _ _ h
  have hs1 : c5s1 init amid now =
      { assistantResponse := "Hel".toList,
        chatMessages := init ++ [⟨amid, Role.assistant, "Hel".toList, now⟩],
        planName := none, isLoading := true } := by
    unfold c5s1 c5state0
    rw [onMessageFold_chunk, hidx]
    rfl
  have hidx2 : findIndexQ (fun m => m.id == amid)
      (init ++ [⟨amid, Role.assistant, "Hel".toList, now⟩]) = some init.length :=
    findIndexQ_append_one _ _ _ hidx (by simp)
  have hs2 : c5s2 init amid now =
      { assistantResponse := "Hello".toList,
        chatMessages := init ++ [⟨amid, Role.assistant, "Hello".toList, now⟩],
        planName := none, isLoading := true } := by
    unfold c5s2
    rw [hs1, onMessageFold_chunk]
    dsimp only
    rw [hidx2]
    dsimp only
    rw [setContent_append_one]
    rfl
  refine ⟨rfl, ?_, ?_, ?_, ?_, by decide, by decide⟩
  · rw [hs1]
  · rw [hs2]
  · show (onCompleteFold (c5s2 init amid now)).chatMessages = _
    rw [hs2]
    rfl
  · rfl

/-- C5 witness: the theorem applied to an empty initial chat history. -/
theorem c5_content_accumulation_witness :
    (c5s2 [] ("assistant-1".toList) 0).chatMessages =
      [⟨"assistant-1".toList, Role.assistant, "Hello".toList, 0⟩] ∧
    (c5s3 [] ("assistant-1".toList) 0).isLoading = false := by
  have h := c5_content_accumulation [] ("assistant-1".toList) 0 rfl
  exact ⟨by simpa using h.2.2.1, h.2.2.2.2.1⟩

/-- C6 counterexample: on the frame `data:␣␣{}` (two spaces after the
marker) the payload the code passes to `JSON.parse` — built with
`trimStart`, which strips ALL leading whitespace, and a final `trim` — is
not the string the claim describes (marker plus at most one leading space
removed, no further trimming). -/
theorem c6_counterexample :
    framePayload c6CounterBlock ≠ c6_claimPayload c6CounterBlock := by decide

/-- C6 amended: the payload equals the join of the data lines with marker
and ALL leading whitespace removed, with the join trimmed at both ends;
and a frame whose resulting payload is empty is discarded with no event
emitted. -/
theorem c6_amended_frame_payload (block : List Char) :
    framePayload block = c6_amendedPayload block ∧
    (framePayload block = [] → frameCb block = none) := by
  constructor
  · unfold framePayload c6_amendedPayload
    rw [filter_map_eq_filterMap]
    have hfun : (fun l => if isDataLine l then some (trimStart (l.drop 5)) else none)
        = (fun l => if isDataLine l then some (dropLeadingWs (l.drop 5)) else none) := by
      funext l
      rw [trimStart_eq_dropLeadingWs]
    rw [hfun]
  · intro hp
    unfold framePayload at hp
    simp only [frameCb]
    rw [hp]
    cases hd : (((splitLines block).filter isDataLine).map (fun l => trimStart (l.drop 5))).isEmpty <;>
      simp [hd]

/-- C6 amended witness: a frame whose single data line carries an empty
payload is discarded. -/
theorem c6_amended_frame_payload_witness :
    framePayload ("data:".toList) = c6_amendedPayload ("data:".toList) ∧
    frameCb ("data:".toList) = none := by
  have h := c6_amended_frame_payload ("data:".toList)
  exact ⟨h.1, h.2 (by decide)⟩

/-- C7 counterexample: a trailing partial frame whose event spans two
`data:` lines produces an event when its separator is present (the
mid-stream path joins the lines into valid JSON) but no event on the
end-of-stream flush (which reads only the FIRST `data:` line), so the
flush is NOT the same payload-construction logic as mid-stream frames. -/
theorem c7_counterexample :
    (runChunks [] [c7Residue]).length = 0 ∧
    (runChunks [] [c7Residue ++ nnSep]).length = 1 :=
  ⟨rfl, rfl⟩

/-- C7 amended: the end-of-stream flush applies the same double-newline
splitting, but builds the payload from only the first `data:` line (with a
both-ends trim and a leading-colon strip); for a residue frame with at
most one `data:` line whose trimmed payload does not start with a colon,
the flush decodes exactly the event the frame would have produced
mid-stream. -/
theorem c7_amended_flush_single_line (block : List Char)
    (h1 : ((splitLines block).filter isDataLine).length ≤ 1)
    (h2 : ((splitLines block).filter isDataLine).all
      (fun l => !startsWithColon (trim (l.drop 5))) = true) :
    flushCb block = frameCb block := by
  cases hfil : (splitLines block).filter isDataLine with
  | nil =>
    have hfind := filter_nil_find_none isDataLine (splitLines block) hfil
    simp [flushCb, frameCb, hfind, hfil]
  | cons l ls =>
    cases ls with
    | cons l2 ls2 =>
      rw [hfil] at h1
      simp at h1
    | nil =>
      have hfind := filter_singleton_find isDataLine (splitLines block) l hfil
      rw [hfil] at h2
      simp only [List.all_cons, List.all_nil, Bool.and_true] at h2
      have hcolon : startsWithColon (trim (l.drop 5)) = false := by simpa using h2
      have hstrip : stripColonWs (trim (l.drop 5)) = trim (l.drop 5) := by
        cases hT : trim (l.drop 5) with
        | nil => rfl
        | cons c r =>
          rw [hT] at hcolon
          simp only [startsWithColon, decide_eq_false_iff_not] at hcolon
          simp only [stripColonWs]
          rw [if_neg hcolon]
      have hpay : trim (joinNL [trimStart (l.drop 5)]) = trim (l.drop 5) := by
        show trim (trimStart (l.drop 5)) = trim (l.drop 5)
        exact trim_trimStart _
      simp only [flushCb, frameCb, hfind, hfil]
      rw [hstrip]
      simp only [List.map_cons, List.map_nil, List.isEmpty_cons]
      rw [hpay]
      simp

/-- C7 amended witness: a single-line terminal frame without its trailing
separator decodes identically on both paths. -/
theorem c7_amended_flush_single_line_witness :
    flushCb c7WitnessBlock = frameCb c7WitnessBlock :=
  c7_amended_flush_single_line c7WitnessBlock (by decide) (by decide)

/-- C8 counterexample: invoking the cancellation handle before any
terminal event does fire exactly one `onError`, but the error it carries
is the timeout-classified `Request timed out after 600000ms` — the
`.catch` cannot tell a user abort from a timer abort — so no
abort-classified (non-timeout) error is ever delivered, contrary to the
claim. -/
theorem c8_counterexample :
    (runScript [Ext.cancel]).trace = [Cb.err (ErrV.msg timeoutMessage)] ∧
    (runScript [Ext.cancel]).trace.any c8_abortClassified = false ∧
    (runScript [Ext.cancel]).aborted = true := by
  refine ⟨rfl, ?_, rfl⟩
  decide

/-- C8 amended: the cancellation handle always disarms the timer and
aborts the connection; invoked while the stream is still live it stops all
further delivery, never calls `onComplete`, and triggers exactly one
`onError` carrying the timeout-classified error (the code reuses the
timeout classification for aborts); invoked after the stream has settled
it triggers no further callback at all. -/
theorem c8_amended_cancellation (s rest : List Ext) :
    ((runScript s).finished = false →
      (runScript (s ++ Ext.cancel :: rest)).trace
          = (runScript s).trace ++ [Cb.err (ErrV.msg timeoutMessage)] ∧
      (runScript (s ++ Ext.cancel :: rest)).finished = true ∧
      (runScript (s ++ Ext.cancel :: rest)).timerActive = false ∧
      (runScript (s ++ Ext.cancel :: rest)).aborted = true) ∧
    ((runScript s).finished = true →
      (runScript (s ++ Ext.cancel :: rest)).trace = (runScript s).trace ∧
      (runScript (s ++ Ext.cancel :: rest)).timerActive = false ∧
      (runScript (s ++ Ext.cancel :: rest)).aborted = true) := by
  have hsplit : runScript (s ++ Ext.cancel :: rest)
      = runScriptFrom (stepE (runScript s) Ext.cancel) rest := by
    show runScriptFrom initSt (s ++ Ext.cancel :: rest) = _
    rw [runScriptFrom_append, runScriptFrom_cons]
    rfl
  constructor
  · intro hf
    have hstep : stepE (runScript s) Ext.cancel =
        { runScript s with
            trace := (runScript s).trace ++ [Cb.err (ErrV.msg timeoutMessage)],
            timerActive := false, aborted := true, finished := true, released := true } := by
      simp [stepE, hf]
    obtain ⟨g1, g2, g3, g4⟩ :=
      runScriptFrom_settled rest (stepE (runScript s) Ext.cancel)
        (by rw [hstep]) (by rw [hstep])
    rw [hsplit]
    refine ⟨?_, g2, g3, g4 (by rw [hstep])⟩
    rw [g1, hstep]
  · intro hf
    have hstep : stepE (runScript s) Ext.cancel =
        { runScript s with timerActive := false, aborted := true } := by
      simp [stepE, hf]
    obtain ⟨g1, g2, g3, g4⟩ :=
      runScriptFrom_settled rest (stepE (runScript s) Ext.cancel)
        (by rw [hstep]; exact hf) (by rw [hstep])
    rw [hsplit]
    refine ⟨?_, g3, g4 (by rw [hstep])⟩
    rw [g1, hstep]

/-- C8 amended witness: cancelling right after the call starts delivers the
one timeout-classified `onError` and settles the stream. -/
theorem c8_amended_cancellation_witness :
    (runScript ([] ++ Ext.cancel :: ([] : List Ext))).trace
        = (runScript []).trace ++ [Cb.err (ErrV.msg timeoutMessage)] ∧
    (runScript ([] ++ Ext.cancel :: ([] : List Ext))).finished = true := by
  have h := (c8_amended_cancellation [] []).1 rfl
  exact ⟨h.1, h.2.1⟩

/-- C9 (error fold): on a terminal `error`, the store clears `isLoading`
and appends one single new assistant message carrying the failure text,
leaving every previously existing message — in particular the in-progress
partial assistant message and its streamed content — untouched, and not
touching the accumulated response buffer. -/
theorem c9_error_append (st : AppState) (now : Nat) :
    (onErrorFold now st).isLoading = false ∧
    (onErrorFold now st).chatMessages.take st.chatMessages.length = st.chatMessages ∧
    (onErrorFold now st).chatMessages.length = st.chatMessages.length + 1 ∧
    (onErrorFold now st).chatMessages.getLast?
        = some ⟨errorId now, Role.assistant, failureText, now⟩ ∧
    (onErrorFold now st).assistantResponse = st.assistantResponse := by
  refine ⟨rfl, ?_, by simp [onErrorFold], ?_, rfl⟩
  · show (st.chatMessages ++ [(⟨errorId now, Role.assistant, failureText, now⟩ : Msg)]).take
        st.chatMessages.length = st.chatMessages
    exact List.take_left _ _
  · show (st.chatMessages ++ [(⟨errorId now, Role.assistant, failureText, now⟩ : Msg)]).getLast?
        = some ⟨errorId now, Role.assistant, failureText, now⟩
    exact List.getLast?_concat _

/-- C10 (no terminal, no callbacks): when the stream ends without any
terminal `complete`/`error` frame having been decoded — including when the
trailing flush finds only non-terminal or unparsable frames — the call
invokes neither `onComplete` nor `onError`: every callback in the trace is
an `onMessage`, the timer is cleared, the reader released, the chain
settles and the connection is never aborted (hence the caller's
`isLoading` flag is never reset by a terminal callback). -/
theorem c10_no_terminal_no_callbacks (chunks : List (List Char))
    (h : (decodedCbs chunks).all (fun o => !optTerminal o) = true) :
    (runScript (pureScript chunks)).trace.all (fun cb => !isTerminal cb) = true ∧
    (runScript (pureScript chunks)).finished = true ∧
    (runScript (pureScript chunks)).timerActive = false ∧
    (runScript (pureScript chunks)).released = true ∧
    (runScript (pureScript chunks)).aborted = false := by
  have h2 : ((framesAcc initSt.buf chunks).map frameCb ++
      flushPart (leftoverF initSt.buf chunks)).all (fun o => !optTerminal o) = true := h
  obtain ⟨g1, g2, g3, g4, g5⟩ := runScript_pure chunks initSt rfl h2
  refine ⟨?_, g2, g3, g4, g5⟩
  show (runScriptFrom initSt (pureScript chunks)).trace.all (fun cb => !isTerminal cb) = true
  rw [g1]
  exact all_filterMap_of_optNonTerm _ h2

/-- C10 witness: a stream of one non-terminal chunk frame. -/
theorem c10_no_terminal_no_callbacks_witness :
    (runScript (pureScript c10Chunks)).trace.all (fun cb => !isTerminal cb) = true ∧
    (runScript (pureScript c10Chunks)).finished = true := by
  have h := c10_no_terminal_no_callbacks c10Chunks (by decide)
  exact ⟨h.1, h.2.1⟩

end Spec2Proof
